import Mathlib

/-!
Shallow embedding of the clg-toolkit backend (Express + pdf-lib + Ghostscript)
for checking its natural-language specification.

The authoritative controller is the complete version of `pdfController.js`
(the repository also ships an older, truncated copy lacking the skip-compression
check and the split/organise/rotate handlers; `server.js` registers routes for
all handlers, which only the complete version defines, so the complete version
is the one embedded here).

JavaScript strings are modelled as `List Char`; JS numbers that hold byte
sizes or page counts are `Nat`, signed quantities (`parseInt` results,
rotation angles, target sizes) are `Int`.  Fallible steps return `Option`
or `Except String`.
-/

namespace ClgToolkit

/-! ## JS string primitives used by the controller -/

/-- JS `String.prototype.split(sep)` for a one-character separator,
accumulator-passing helper.  `"".split(sep)` yields `[""]`. -/
def splitCharAux (sep : Char) : List Char → List Char → List (List Char)
  | [], acc => [acc.reverse]
  | c :: rest, acc =>
    if c = sep then acc.reverse :: splitCharAux sep rest []
    else splitCharAux sep rest (c :: acc)

/-- JS `s.split(sep)` for a one-character separator. -/
def splitChar (sep : Char) (s : List Char) : List (List Char) :=
  splitCharAux sep s []

/-- Whitespace recognised by JS `trim` / `parseInt` (the forms that matter
for form-field inputs). -/
def isJsWs (c : Char) : Bool :=
  c = ' ' || c = '\t' || c = '\n' || c = '\r'

/-- JS `String.prototype.trim()`. -/
def jsTrim (s : List Char) : List Char :=
  ((s.dropWhile isJsWs).reverse.dropWhile isJsWs).reverse

/-- Numeric value of the leading decimal-digit run, `none` when there is no
leading digit (JS `NaN`). -/
def leadingNat (s : List Char) : Option Nat :=
  let ds := s.takeWhile Char.isDigit
  if ds.isEmpty then none
  else some (ds.foldl (fun a c => a * 10 + (c.toNat - 48)) 0)

/-- JS `parseInt(s)` (base 10): skip leading whitespace, optional sign,
leading digit run; `none` models `NaN`. -/
def parseIntJS (s : List Char) : Option Int :=
  match s.dropWhile isJsWs with
  | '-' :: rest => (leadingNat rest).map (fun n => -(n : Int))
  | '+' :: rest => (leadingNat rest).map (fun n => (n : Int))
  | rest => (leadingNat rest).map (fun n => (n : Int))

/-! ## Range Selector: the parsing loop inside `exports.split`
(`part_004` lines 473-489).

```js
const parts = pages.split(',');
for (const part of parts) {
    if (part.includes('-')) {
        const [start, end] = part.split('-').map(n => parseInt(n.trim()));
        if (start > end) continue;
        for (let i = start; i <= end; i++) {
            if (i >= 1 && i <= totalPages) pageIndices.push(i - 1);
        }
    } else {
        const pageNum = parseInt(part.trim());
        if (pageNum >= 1 && pageNum <= totalPages) pageIndices.push(pageNum - 1);
    }
}
```
-/

/-- The inclusive integer interval `[s, e]` as a list (empty when `e < s`),
modelling `for (let i = start; i <= end; i++)`. -/
def intRange (s e : Int) : List Int :=
  (List.range (e + 1 - s).toNat).map (fun k => s + (k : Int))

/-- Pages contributed by one `start-end` token.  A `NaN` bound (`none`)
contributes nothing: in JS both the `start > end` test and the loop
condition are false on `NaN`. -/
def rangePages (totalPages : Nat) (startO endO : Option Int) : List Nat :=
  match startO, endO with
  | some s, some e =>
    if e < s then []
    else (intRange s e).filterMap (fun i =>
      if 1 ≤ i ∧ i ≤ (totalPages : Int) then some (i - 1).toNat else none)
  | _, _ => []

/-- Pages contributed by one comma-separated token of the range spec. -/
def tokenPages (totalPages : Nat) (part : List Char) : List Nat :=
  if part.contains '-' then
    match splitChar '-' part with
    | a :: b :: _ => rangePages totalPages (parseIntJS (jsTrim a)) (parseIntJS (jsTrim b))
    | _ => []
  else
    match parseIntJS (jsTrim part) with
    | some n => if 1 ≤ n ∧ n ≤ (totalPages : Int) then [(n - 1).toNat] else []
    | none => []

/-- `pageIndices` computed by `exports.split`: 0-based page indices in token
order, duplicates retained exactly as pushed by the JS loop. -/
def splitParse (pages : List Char) (totalPages : Nat) : List Nat :=
  (splitChar ',' pages).flatMap (tokenPages totalPages)

/-- The split handler after parsing (`part_004` lines 491-505): empty spec or
empty resolved index list is a request error, otherwise the new document holds
copies of the referenced pages in exactly the parsed order. -/
def splitHandler (pages : List Char) (totalPages : Nat) : Except String (List Nat) :=
  if pages.isEmpty then .error "Page range required"
  else
    let idxs := splitParse pages totalPages
    if idxs.isEmpty then .error "No valid pages selected"
    else .ok idxs

/-! ## Rotation: `exports.rotate` (`part_004` lines 564-604)

```js
Object.keys(rotationMap).forEach(pageIdx => {
    const pIndex = parseInt(pageIdx) - 1;
    const angle = parseInt(rotationMap[pageIdx]);
    if (pIndex >= 0 && pIndex < pages.length) {
        const page = pages[pIndex];
        const currentRotation = page.getRotation().angle;
        page.setRotation(degrees(currentRotation + angle));
    }
});
```

pdf-lib semantics embedded here: `page.getRotation().angle` returns the
stored `/Rotate` value (default 0) and `PDFPage.setRotation(degrees(a))`
asserts that `a` is a multiple of 90 (otherwise it throws, which the
handler's catch turns into a 500 error) and then stores `a` verbatim —
pdf-lib performs no modular normalization on either read or write.
A document is the list of its pages' stored rotation values; the map
entries are the `(parseInt(key), parseInt(value))` pairs in iteration
order. -/

/-- One iteration of the `forEach` body: entry `(pageNum, delta)` against the
current page rotations.  `none` models the `assertMultiple` throw inside
`setRotation`. -/
def rotateStep (entry : Int × Int) (pages : List Int) : Option (List Int) :=
  let pIndex := entry.1 - 1
  if 0 ≤ pIndex ∧ pIndex < (pages.length : Int) then
    match pages.get? pIndex.toNat with
    | some cur =>
      if (cur + entry.2) % 90 = 0 then some (pages.set pIndex.toNat (cur + entry.2))
      else none
    | none => none
  else some pages

/-- `exports.rotate` over the page rotation values: fold of `rotateStep` over
the rotation-map entries; a throw anywhere aborts the request. -/
def rotatePDF (pages : List Int) (rotationMap : List (Int × Int)) : Option (List Int) :=
  rotationMap.foldl (fun st e => st.bind (rotateStep e)) (some pages)

/-! ## Compression: `exports.compress` (`part_004` lines 52-221)

The external-tool behaviour for one request is abstracted as
`run : Nat → Option Nat`: invoking `compressWithPreset` on preset index `i`
of `presets = ['/prepress', '/printer', '/ebook', '/screen']` either yields a
candidate file of `run i = some size` bytes or fails (`none`, the rejected
promise caught by the step's try/catch).  The fallback resave
(`PDFDocument.load` + `save`) is abstracted as `resave : Option Nat`, the
size of the resaved output (`none` when loading the upload throws).

`targetSize` arrives as a form-body string, so any supplied value — even
`"0"` — is truthy; it is modelled as `Option Int` (`none` = absent/empty).
JS `size <= targetSize` coerces the string to a number, giving the `Int`
comparison used below. -/

/-- Ghostscript quality presets tried high-to-low (`part_004` line 75). -/
def gsPresets : List String := ["/prepress", "/printer", "/ebook", "/screen"]

/-- Outcome of the preset search loop: the candidate left in `bestPath`
(preset index paired with its byte size), the preset indices whose candidate
files were `fs.remove`d, and the preset indices actually invoked. -/
structure SearchResult where
  best : Option (Nat × Nat)
  removed : List Nat
  invoked : List Nat
deriving DecidableEq

/-- Search state before any preset ran: `bestPath = null`,
`bestSize = Infinity`. -/
def emptySearch : SearchResult := ⟨none, [], []⟩

/-- The `for (const preset of presets)` loop with a `targetSize`
(`part_004` lines 166-188): stop (`break`) at the first candidate whose size
is at most the target — note the previous `bestPath`, if any, is *not*
removed on this path — otherwise keep the strictly smaller of the incumbent
and the new candidate and `fs.remove` the other. -/
def presetSearchAux (run : Nat → Option Nat) (target : Int) :
    List Nat → SearchResult → SearchResult
  | [], st => st
  | i :: rest, st =>
    match run i with
    | none => presetSearchAux run target rest ⟨st.best, st.removed, st.invoked ++ [i]⟩
    | some size =>
      if (size : Int) ≤ target then ⟨some (i, size), st.removed, st.invoked ++ [i]⟩
      else
        match st.best with
        | none =>
          presetSearchAux run target rest ⟨some (i, size), st.removed, st.invoked ++ [i]⟩
        | some (bi, bs) =>
          if size < bs then
            presetSearchAux run target rest
              ⟨some (i, size), st.removed ++ [bi], st.invoked ++ [i]⟩
          else
            presetSearchAux run target rest
              ⟨some (bi, bs), st.removed ++ [i], st.invoked ++ [i]⟩

/-- The full targeted search over the four presets. -/
def presetSearch (run : Nat → Option Nat) (target : Int) : SearchResult :=
  presetSearchAux run target (List.range gsPresets.length) emptySearch

/-- Does invoking preset `i` yield a candidate meeting the target?  This is
the `size <= targetSize` break condition of the loop. -/
def hitTarget (run : Nat → Option Nat) (target : Int) (i : Nat) : Bool :=
  match run i with
  | some s => decide ((s : Int) ≤ target)
  | none => false

/-- Reference fold mirroring the `bestPath`/`bestSize` bookkeeping (keep the
first strictly smaller candidate), used to characterize the loop's
exhaustion case. -/
def minAcc (run : Nat → Option Nat) : List Nat → Option (Nat × Nat) → Option (Nat × Nat)
  | [], b => b
  | i :: rest, b =>
    match run i with
    | none => minAcc run rest b
    | some s =>
      match b with
      | none => minAcc run rest (some (i, s))
      | some (bi, bs) =>
        if s < bs then minAcc run rest (some (i, s)) else minAcc run rest (some (bi, bs))

/-- The preset index held in `bestPath`, as a zero-or-one-element list. -/
def optIdx : Option (Nat × Nat) → List Nat
  | none => []
  | some (j, _) => [j]

/-- Tool behaviour exhibiting the cleanup leak: `/prepress` yields a 500-byte
candidate, `/printer` a 250-byte one, later presets are never reached. -/
def runLeak : Nat → Option Nat :=
  fun i => if i = 0 then some 500 else if i = 1 then some 250 else none

/-- Tool behaviour for the exhaustion case: candidates of 500, 250 and 400
bytes, `/screen` failing, none of them meeting a target of 100. -/
def runExhaust : Nat → Option Nat :=
  fun i =>
    if i = 0 then some 500 else if i = 1 then some 250
    else if i = 2 then some 400 else none

/-- `message` string of the skip-compression response (`part_004` line 70). -/
def skipMessage : String := "File was already under target size (Original Quality Preserved)"

/-- `warning` string of the fallback response (`part_004` line 120). -/
def fallbackWarning : String := "Basic optimization only. Install Ghostscript for max compression."

/-- The JSON success payload of `exports.compress` (`url`/`filename` carry a
random uuid and are not modelled). -/
structure CompressReply where
  size : Nat
  originalSize : Nat
  warning : Option String
  message : Option String
deriving DecidableEq

/-- `exports.compress` after the skip check: Ghostscript probe, fallback
resave when absent, targeted greedy search or single `/ebook` default when
present; `.error` carries the 500-response message. -/
def compressMain (gsAvail : Bool) (run : Nat → Option Nat) (resave : Option Nat)
    (target : Option Int) (fileSize : Nat) : Except String CompressReply × SearchResult :=
  if gsAvail = false then
    match resave with
    | some rs => (.ok ⟨rs, fileSize, some fallbackWarning, none⟩, emptySearch)
    | none => (.error "Compression failed (and Ghostscript is not installed).", emptySearch)
  else
    match target with
    | some t =>
      let sr := presetSearch run t
      match sr.best with
      | some (_, bs) => (.ok ⟨bs, fileSize, none, none⟩, sr)
      | none => (.error "Could not compress file", sr)
    | none =>
      match run 2 with
      | some s => (.ok ⟨s, fileSize, none, none⟩, ⟨some (2, s), [], [2]⟩)
      | none => (.error "Could not compress file", ⟨none, [], [2]⟩)

/-- `exports.compress` (`part_004` lines 52-221), starting with the skip
check `if (targetSize && req.file.size <= targetSize)` (lines 61-72), which
copies the upload verbatim and answers with the original size before any
Ghostscript probe or preset runs. -/
def compress (gsAvail : Bool) (run : Nat → Option Nat) (resave : Option Nat)
    (target : Option Int) (fileSize : Nat) : Except String CompressReply × SearchResult :=
  match target with
  | some t =>
    if (fileSize : Int) ≤ t then
      (.ok ⟨fileSize, fileSize, none, some skipMessage⟩, emptySearch)
    else compressMain gsAvail run resave (some t) fileSize
  | none => compressMain gsAvail run resave none fileSize

/-! ## Validation: `exports.validate` (`part_004` lines 416-452) -/

/-- The data `exports.validate` reads off a loaded document. -/
structure LoadedPdf where
  encrypted : Bool
  pageCount : Nat
deriving DecidableEq

/-- Validation status strings. -/
inductive VStatus
  | READY
  | RISKY
  | INVALID
deriving DecidableEq

/-- 5 MB threshold of the `RISKY` business rule (`part_004` line 439). -/
def SIZE_THRESHOLD : Nat := 5 * 1024 * 1024

/-- The validate JSON payload (its `message`/`filename` strings are not
modelled). -/
structure ValidateReply where
  status : VStatus
  pageCount : Option Nat
  size : Option Nat
deriving DecidableEq

/-- `exports.validate`: `loaded = none` models `PDFDocument.load` throwing on
the uploaded bytes (caught, answered as INVALID); an encrypted document is
INVALID; otherwise READY, upgraded to RISKY above the 5 MB threshold, with
the page count and size reported. -/
def validate (loaded : Option LoadedPdf) (fileSize : Nat) : ValidateReply :=
  match loaded with
  | none => ⟨.INVALID, none, none⟩
  | some d =>
    if d.encrypted then ⟨.INVALID, none, none⟩
    else ⟨if SIZE_THRESHOLD < fileSize then .RISKY else .READY, some d.pageCount, some fileSize⟩

/-! ## Metadata: `exports.updateMetadata` (`part_004` lines 371-405)

```js
if (title) doc.setTitle(title);
if (author) doc.setAuthor(author);
if (subject) doc.setSubject(subject);
if (keywords) doc.setKeywords(keywords.split(','));
doc.setProducer('College Submission Toolkit');
```
-/

/-- Document metadata fields touched by the handler. -/
structure PdfMeta where
  title : Option String
  author : Option String
  subject : Option String
  keywords : Option (List String)
  producer : Option String
deriving DecidableEq

/-- The request-body fields; a form body delivers strings, so an absent or
empty field is `none` / `some ""`, both falsy in the JS guards. -/
structure MetaBody where
  title : Option String
  author : Option String
  subject : Option String
  keywords : Option String
deriving DecidableEq

/-- JS truthiness of an optional string field. -/
def jsTruthy : Option String → Bool
  | none => false
  | some s => !(s == "")

/-- `if (field) doc.setField(field)` on one string field. -/
def applyField (req cur : Option String) : Option String :=
  if jsTruthy req then req else cur

/-- `keywords.split(',')`. -/
def splitKeywords (s : String) : List String :=
  (splitChar ',' s.toList).map List.asString

/-- `exports.updateMetadata` on the metadata record: each truthy body field
overwrites its document field, the rest stay, and the producer tag is stamped
unconditionally afterwards. -/
def updateMetadata (doc : PdfMeta) (b : MetaBody) : PdfMeta :=
  { title := applyField b.title doc.title
    author := applyField b.author doc.author
    subject := applyField b.subject doc.subject
    keywords :=
      match b.keywords with
      | some s => if s == "" then doc.keywords else some (splitKeywords s)
      | none => doc.keywords
    producer := some "College Submission Toolkit" }

/-! ## Image to PDF: `exports.imageToPdf` (`part_004` lines 314-362) -/

/-- One uploaded file as the handler sees it: its declared mime type and
whether `embedJpg`/`embedPng` would succeed on its bytes (an embed throw is
caught by the handler's outer catch and 500s the whole request). -/
structure UploadImage where
  mimetype : String
  embedOk : Bool
deriving DecidableEq

/-- Mime types the handler embeds; all others hit the `continue`. -/
def supportedMime (m : String) : Bool :=
  m == "image/jpeg" || m == "image/jpg" || m == "image/png"

/-- One iteration of the embed loop, threading the page count so far; an
embed throw aborts the request (the outer catch answers 500). -/
def imageStep (acc : Except String Nat) (f : UploadImage) : Except String Nat :=
  acc.bind (fun n =>
    if supportedMime f.mimetype then
      if f.embedOk then .ok (n + 1) else .error "Image conversion failed"
    else .ok n)

/-- `exports.imageToPdf`, returning the page count of the produced document
(pdf-lib's `save` accepts a zero-page document, so a document whose every
file was skipped is still written and answered as a success). -/
def imageToPdf (files : List UploadImage) : Except String Nat :=
  if files.isEmpty then .error "No images uploaded"
  else files.foldl imageStep (.ok 0)

/-! ## Artifact names: multer storage (`server.js` lines 28-39) and
`exports.rename` (`part_004` lines 274-303) -/

/-- Character class kept by the rename sanitizer
`replace(/[^a-zA-Z0-9_.-]/g, '')`. -/
def isSafeChar (c : Char) : Bool :=
  ('a' ≤ c && c ≤ 'z') || ('A' ≤ c && c ≤ 'Z') || ('0' ≤ c && c ≤ '9') ||
    c = '_' || c = '.' || c = '-'

/-- `replace(/[^a-zA-Z0-9_.-]/g, '')`. -/
def sanitizeFilename (s : List Char) : List Char :=
  s.filter isSafeChar

/-- Filename built by `exports.rename`:
`` `${rollNo}_${subject}_${type}_${date}.pdf` `` sanitized as above. -/
def renameFilename (rollNo subject ty date : List Char) : List Char :=
  sanitizeFilename (rollNo ++ '_' :: subject ++ '_' :: ty ++ '_' :: date ++ (".pdf").toList)

/-- Filename assigned by the multer disk-storage callback
(`server.js` line 33): `` `${uuidv4()}_${file.originalname}` `` — the
user-supplied original name is appended verbatim. -/
def storageFilename (uuid originalname : List Char) : List Char :=
  uuid ++ '_' :: originalname

/-! ## TTL sweep: the `setInterval` cleanup (`server.js` lines 64-79)

```js
try {
    const files = await fs.readdir(TEMP_DIR);
    const now = Date.now();
    for (const file of files) {
        const filePath = path.join(TEMP_DIR, file);
        const stats = await fs.stat(filePath);
        if (now - stats.mtimeMs > 5 * 60 * 1000) {
            await fs.remove(filePath);
        }
    }
} catch (err) { console.error('Cleanup error:', err); }
```

The try/catch stands *outside* the `for` loop, so a throwing `fs.remove`
abandons the remainder of that cycle (only logged; the interval fires
again a minute later). -/

/-- Five-minute TTL in milliseconds. -/
def TTL_MS : Nat := 5 * 60 * 1000

/-- Sweep interval in milliseconds. -/
def SWEEP_INTERVAL_MS : Nat := 60 * 1000

/-- A temp-directory entry: identifier and modification time (ms).  JS
`now - mtimeMs` on a future mtime is negative and fails the `>` test, as
does the truncated `Nat` subtraction used here. -/
structure TFile where
  name : Nat
  mtime : Nat
deriving DecidableEq

/-- One sweep cycle over the directory listing.  `removeFails f` models
`fs.remove` throwing on that entry; the files not yet examined then survive
the cycle along with the failing one. -/
def sweepAux (now : Nat) (removeFails : TFile → Bool) :
    List TFile → List TFile → List TFile
  | [], survivors => survivors
  | f :: rest, survivors =>
    if TTL_MS < now - f.mtime then
      if removeFails f then survivors ++ f :: rest
      else sweepAux now removeFails rest survivors
    else sweepAux now removeFails rest (survivors ++ [f])

/-- The files still present after one firing of the cleanup interval. -/
def sweepCycle (now : Nat) (removeFails : TFile → Bool) (files : List TFile) : List TFile :=
  sweepAux now removeFails files []

/-! ## Theorems -/

/-- C2 counterexample: the split parser is order-preserving and keeps
duplicates — `"3,1"` parses to `[2, 0]` (0-based), not sorted ascending, and
`"1,1"` parses to `[0, 0]`, not de-duplicated. -/
theorem splitParse_not_sorted_counterexample :
    splitParse ("3,1").toList 10 = [2, 0] ∧
    ¬ List.Sorted (· ≤ ·) (splitParse ("3,1").toList 10) ∧
    splitParse ("1,1").toList 10 = [0, 0] ∧
    ¬ (splitParse ("1,1").toList 10).Nodup := by decide

/-- Helper: splitting at a one-character separator distributes over an
occurrence of that separator. -/
theorem splitCharAux_append (sep : Char) (s₂ : List Char) :
    ∀ (s₁ acc : List Char),
      splitCharAux sep (s₁ ++ sep :: s₂) acc
        = splitCharAux sep s₁ acc ++ splitChar sep s₂
  | [], acc => by
    simp [splitCharAux, splitChar]
  | c :: s₁, acc => by
    by_cases hc : c = sep
    · simp [splitCharAux, hc, splitCharAux_append sep s₂ s₁ []]
    · simp [splitCharAux, hc, splitCharAux_append sep s₂ s₁ (c :: acc)]

/-- Helper: `split(',')` sends `s₁ ++ "," ++ s₂` to the two token lists in
order. -/
theorem splitChar_append (sep : Char) (s₁ s₂ : List Char) :
    splitChar sep (s₁ ++ sep :: s₂) = splitChar sep s₁ ++ splitChar sep s₂ :=
  splitCharAux_append sep s₂ s₁ []

/-- Helper: a range token only contributes 0-based indices below the page
count. -/
theorem rangePages_lt (totalPages : Nat) (startO endO : Option Int) :
    ∀ i ∈ rangePages totalPages startO endO, i < totalPages := by
  intro i hi
  rcases startO with _ | s
  · simp [rangePages] at hi
  rcases endO with _ | e
  · simp [rangePages] at hi
  simp only [rangePages] at hi
  split_ifs at hi with he
  · simp at hi
  · rcases List.mem_filterMap.mp hi with ⟨x, _, hx⟩
    split_ifs at hx with hb
    have hxi := Option.some.inj hx
    omega

/-- Helper: every token contributes only indices below the page count. -/
theorem tokenPages_lt (totalPages : Nat) (part : List Char) :
    ∀ i ∈ tokenPages totalPages part, i < totalPages := by
  intro i hi
  unfold tokenPages at hi
  split_ifs at hi with hdash
  · rcases hsp : splitChar '-' part with _ | ⟨a, _ | ⟨b, rest⟩⟩ <;> simp only [hsp] at hi
    · simp at hi
    · simp at hi
    · exact rangePages_lt totalPages _ _ i hi
  · rcases hp : parseIntJS (jsTrim part) with _ | n <;> simp only [hp] at hi
    · simp at hi
    · split_ifs at hi with hb
      · rcases List.mem_singleton.mp hi with rfl
        omega
      · simp at hi

/-- C2 amended: the split parser keeps tokens in input order with duplicates
retained (identical to reorder mode); every emitted 0-based index is below
the page count; and `parse("1-3,5", 10)` does yield pages 1,2,3,5 — sorted
and unique only because those tokens happen to be. -/
theorem splitParse_order_preserving :
    splitParse ("1-3,5").toList 10 = [0, 1, 2, 4] ∧
    (∀ (spec : List Char) (total : Nat), ∀ i ∈ splitParse spec total, i < total) ∧
    (∀ (s₁ s₂ : List Char) (total : Nat),
      splitParse (s₁ ++ ',' :: s₂) total
        = splitParse s₁ total ++ splitParse s₂ total) := by
  refine ⟨by decide, ?_, ?_⟩
  · intro spec total i hi
    rcases List.mem_flatMap.mp hi with ⟨part, _, hpart⟩
    exact tokenPages_lt total part i hpart
  · intro s₁ s₂ total
    unfold splitParse
    rw [splitChar_append, List.flatMap_append]

/-- C2 amended witness: index 0 emitted for `"1"` is below the page count 5,
and `"2,1-2"` parses to the concatenation `[1] ++ [0, 1]` — out of order and
with a duplicate. -/
theorem splitParse_order_preserving_witness :
    (0 : Nat) < 5 ∧ splitParse ("2,1-2").toList 5 = [1] ++ [0, 1] := by
  have h := splitParse_order_preserving
  refine ⟨h.2.1 ("1").toList 5 0 (by decide), ?_⟩
  have h3 := h.2.2 ("2").toList ("1-2").toList 5
  exact (by decide : splitParse ("2,1-2").toList 5
      = splitParse (("2").toList ++ ',' :: ("1-2").toList) 5).trans
    (h3.trans (by decide))

/-- C1: a compress request that supplies a `targetSize` no smaller than the
upload answers with the skip response — reported size equal to the original
size — and invokes no quality preset. -/
theorem compress_skip_when_under_target
    (gsAvail : Bool) (run : Nat → Option Nat) (resave : Option Nat)
    (t : Int) (fileSize : Nat) (h : (fileSize : Int) ≤ t) :
    (compress gsAvail run resave (some t) fileSize).1
        = .ok ⟨fileSize, fileSize, none, some skipMessage⟩ ∧
    (compress gsAvail run resave (some t) fileSize).2.invoked = [] := by
  simp only [compress]
  rw [if_pos h]
  exact ⟨rfl, rfl⟩

/-- C1 witness: a 400-byte upload against a 1000-byte target is returned
verbatim with no preset invoked. -/
theorem compress_skip_when_under_target_witness :
    (compress true (fun _ => some 100) none (some 1000) 400).1
        = .ok ⟨400, 400, none, some skipMessage⟩ ∧
    (compress true (fun _ => some 100) none (some 1000) 400).2.invoked = [] :=
  compress_skip_when_under_target true (fun _ => some 100) none 1000 400 (by decide)

/-- C3 counterexample: rotating a page starting at 0 by 270 and then by 180
stores rotation 450, not the normalized 90; 450 lies outside `[0, 360)`. -/
theorem rotate_not_normalized_counterexample :
    rotatePDF [0] [(1, 270)] = some [270] ∧
    rotatePDF [270] [(1, 180)] = some [450] ∧
    rotatePDF [270] [(1, 180)] ≠ some [90] ∧
    ¬ (450 : Int) < 360 ∧ (450 : Int) % 360 = 90 := by decide

/-- C3 amended: rotate stores previous rotation plus delta for the referenced
page with no normalization into `[0, 360)` (pdf-lib keeps the raw value, only
asserting it is a multiple of 90). -/
theorem rotate_adds_delta_unnormalized
    (pages : List Int) (p d cur : Int)
    (hp : 1 ≤ p) (hlen : p ≤ (pages.length : Int))
    (hcur : pages.get? (p - 1).toNat = some cur)
    (hdiv : (cur + d) % 90 = 0) :
    rotatePDF pages [(p, d)] = some (pages.set (p - 1).toNat (cur + d)) := by
  have hcond : 0 ≤ p - 1 ∧ p - 1 < (pages.length : Int) := by omega
  simp only [rotatePDF, List.foldl_cons, List.foldl_nil, Option.some_bind]
  unfold rotateStep
  simp only [if_pos hcond, hcur, if_pos hdiv]

/-- C3 amended witness: page 2 at rotation 90 rotated by 270 ends stored at
360, not 0. -/
theorem rotate_adds_delta_unnormalized_witness :
    rotatePDF [0, 90] [(2, 270)] = some [0, 360] := by
  have h := rotate_adds_delta_unnormalized [0, 90] 2 270 90
    (by decide) (by decide) (by decide) (by decide)
  exact h.trans (by decide)

/-- C5: unloadable bytes validate as INVALID (a value, not a crash); an
encrypted document is INVALID; a loadable non-encrypted document is RISKY
exactly when its size exceeds 5 MB and READY exactly when it does not, with
the page count and size reported. -/
theorem validate_classification (pc fileSize : Nat) :
    validate none fileSize = ⟨.INVALID, none, none⟩ ∧
    validate (some ⟨true, pc⟩) fileSize = ⟨.INVALID, none, none⟩ ∧
    ((validate (some ⟨false, pc⟩) fileSize).status = .RISKY ↔ SIZE_THRESHOLD < fileSize) ∧
    ((validate (some ⟨false, pc⟩) fileSize).status = .READY ↔ fileSize ≤ SIZE_THRESHOLD) ∧
    (validate (some ⟨false, pc⟩) fileSize).pageCount = some pc ∧
    (validate (some ⟨false, pc⟩) fileSize).size = some fileSize := by
  refine ⟨rfl, rfl, ?_, ?_, rfl, rfl⟩ <;>
    · unfold validate
      split_ifs with hs <;> simp_all

/-- C6 counterexample: the multer storage name for original filename
`"../evil.pdf"` contains a path separator and is not the uuid token followed
by a sanitized suffix, so a user-supplied name can escape the temp
directory. -/
theorem storage_name_unsanitized_counterexample :
    '/' ∈ storageFilename ("u123").toList ("../evil.pdf").toList ∧
    isSafeChar '/' = false ∧
    storageFilename ("u123").toList ("../evil.pdf").toList
      ≠ ("u123").toList ++ '_' :: sanitizeFilename (("../evil.pdf").toList) := by decide

/-- C6 amended: only the rename operation sanitizes — every character of a
rename-produced filename lies in the safe class (excluding path separators) —
while the upload store appends the user-supplied original name verbatim after
the random token. -/
theorem rename_sanitized_storage_raw
    (rollNo subject ty date uuid originalname : List Char) :
    (∀ c ∈ renameFilename rollNo subject ty date, isSafeChar c = true) ∧
    storageFilename uuid originalname = uuid ++ '_' :: originalname := by
  refine ⟨fun c hc => ?_, rfl⟩
  exact (List.mem_filter.mp hc).2

/-- C6 amended witness: a sanitized rename name keeps only safe characters;
the storage name is the raw concatenation. -/
theorem rename_sanitized_storage_raw_witness :
    isSafeChar 'B' = true ∧
    storageFilename ("u1").toList ("a.pdf").toList
      = ("u1").toList ++ '_' :: ("a.pdf").toList := by
  have h := rename_sanitized_storage_raw ("B21/CS-001").toList ("OS").toList
    ("Lab").toList ("2024").toList ("u1").toList ("a.pdf").toList
  exact ⟨h.1 'B' (by decide), h.2⟩

/-- C7 counterexample: two artifacts both strictly older than the TTL; the
removal of the first one throws, and the second — whose own removal would
succeed — survives the cycle, because the catch sits outside the loop. -/
theorem sweep_abort_counterexample :
    TTL_MS < 600000 - (0 : Nat) ∧
    ((⟨1, 0⟩ : TFile).name == 0) = false ∧
    sweepCycle 600000 (fun f => f.name == 0) [⟨0, 0⟩, ⟨1, 0⟩] = [⟨0, 0⟩, ⟨1, 0⟩] ∧
    ⟨1, 0⟩ ∈ sweepCycle 600000 (fun f => f.name == 0) [⟨0, 0⟩, ⟨1, 0⟩] := by decide

/-- Helper: a sweep in which no expired entry fails to delete appends the
young entries to the accumulator. -/
theorem sweepAux_no_error (now : Nat) (removeFails : TFile → Bool) :
    ∀ (files acc : List TFile),
      (∀ f ∈ files, TTL_MS < now - f.mtime → removeFails f = false) →
      sweepAux now removeFails files acc
        = acc ++ files.filter (fun f => now - f.mtime ≤ TTL_MS)
  | [], acc, _ => by simp [sweepAux]
  | f :: rest, acc, h => by
    have hrest : ∀ g ∈ rest, TTL_MS < now - g.mtime → removeFails g = false :=
      fun g hg => h g (List.mem_cons_of_mem _ hg)
    unfold sweepAux
    by_cases hold : TTL_MS < now - f.mtime
    · rw [if_pos hold, h f (List.mem_cons_self _ _) hold, if_neg (by simp),
        sweepAux_no_error now removeFails rest acc hrest, List.filter_cons,
        if_neg (by simp only [decide_eq_true_eq]; omega)]
    · rw [if_neg hold, sweepAux_no_error now removeFails rest (acc ++ [f]) hrest,
        List.filter_cons, if_pos (by simp only [decide_eq_true_eq]; omega)]
      simp

/-- C7 amended: when no expired artifact's deletion throws, one sweep cycle
deletes exactly the artifacts strictly older than the five-minute TTL and
keeps every younger one; a deletion error instead abandons the remainder of
that cycle (it is only logged, and the interval fires again). -/
theorem sweep_no_error_filters (now : Nat) (removeFails : TFile → Bool)
    (files : List TFile)
    (h : ∀ f ∈ files, TTL_MS < now - f.mtime → removeFails f = false) :
    sweepCycle now removeFails files
      = files.filter (fun f => now - f.mtime ≤ TTL_MS) := by
  unfold sweepCycle
  rw [sweepAux_no_error now removeFails files [] h]
  rfl

/-- C7 amended witness: with no deletion errors, the expired artifact is
deleted and the young artifact survives. -/
theorem sweep_no_error_filters_witness :
    sweepCycle 600000 (fun _ => false) [⟨0, 0⟩, ⟨1, 599999⟩] = [⟨1, 599999⟩] := by
  have h := sweep_no_error_filters 600000 (fun _ => false) [⟨0, 0⟩, ⟨1, 599999⟩]
    (by decide)
  exact h.trans (by decide)

/-- C8: the metadata handler overwrites exactly the supplied (truthy) fields
among title, author, subject and keywords, leaves every unsupplied field at
its prior value, and stamps the fixed producer tag unconditionally. -/
theorem updateMetadata_frame (doc : PdfMeta) (b : MetaBody) :
    (updateMetadata doc b).producer = some "College Submission Toolkit" ∧
    (∀ s, b.title = some s → s ≠ "" → (updateMetadata doc b).title = some s) ∧
    (b.title = none → (updateMetadata doc b).title = doc.title) ∧
    (∀ s, b.author = some s → s ≠ "" → (updateMetadata doc b).author = some s) ∧
    (b.author = none → (updateMetadata doc b).author = doc.author) ∧
    (∀ s, b.subject = some s → s ≠ "" → (updateMetadata doc b).subject = some s) ∧
    (b.subject = none → (updateMetadata doc b).subject = doc.subject) ∧
    (∀ s, b.keywords = some s → s ≠ "" →
      (updateMetadata doc b).keywords = some (splitKeywords s)) ∧
    (b.keywords = none → (updateMetadata doc b).keywords = doc.keywords) := by
  refine ⟨rfl, ?_, ?_, ?_, ?_, ?_, ?_, ?_, ?_⟩
  · intro s hs hne
    simp [updateMetadata, applyField, jsTruthy, hs, hne]
  · intro hn
    simp [updateMetadata, applyField, jsTruthy, hn]
  · intro s hs hne
    simp [updateMetadata, applyField, jsTruthy, hs, hne]
  · intro hn
    simp [updateMetadata, applyField, jsTruthy, hn]
  · intro s hs hne
    simp [updateMetadata, applyField, jsTruthy, hs, hne]
  · intro hn
    simp [updateMetadata, applyField, jsTruthy, hn]
  · intro s hs hne
    simp [updateMetadata, hs, hne]
  · intro hn
    simp [updateMetadata, hn]

/-- C8 witness: title and keywords supplied are overwritten, author and
subject unsupplied stay, producer stamped. -/
theorem updateMetadata_frame_witness :
    (updateMetadata ⟨some "Old", some "A", none, none, some "Scanner"⟩
      ⟨some "New", none, none, some "a,b"⟩).title = some "New" ∧
    (updateMetadata ⟨some "Old", some "A", none, none, some "Scanner"⟩
      ⟨some "New", none, none, some "a,b"⟩).author = some "A" ∧
    (updateMetadata ⟨some "Old", some "A", none, none, some "Scanner"⟩
      ⟨some "New", none, none, some "a,b"⟩).keywords = some ["a", "b"] ∧
    (updateMetadata ⟨some "Old", some "A", none, none, some "Scanner"⟩
      ⟨some "New", none, none, some "a,b"⟩).producer
        = some "College Submission Toolkit" := by
  have h := updateMetadata_frame ⟨some "Old", some "A", none, none, some "Scanner"⟩
    ⟨some "New", none, none, some "a,b"⟩
  refine ⟨h.2.1 "New" rfl (by decide), h.2.2.2.2.1 rfl, ?_, h.1⟩
  exact (h.2.2.2.2.2.2.2.1 "a,b" rfl (by decide)).trans (by decide)

/-- C9: with Ghostscript absent and a loadable upload that does not trigger
the skip check, the response is the structural resave's size as a success
with the fallback warning — the same response for every target, even one the
resave exceeds. -/
theorem compress_fallback_ignores_target
    (run : Nat → Option Nat) (rs : Nat) (t : Int) (fileSize : Nat)
    (h : t < (fileSize : Int)) :
    compress false run (some rs) (some t) fileSize
        = (.ok ⟨rs, fileSize, some fallbackWarning, none⟩, emptySearch) ∧
    compress false run (some rs) none fileSize
        = (.ok ⟨rs, fileSize, some fallbackWarning, none⟩, emptySearch) := by
  constructor
  · simp only [compress]
    rw [if_neg (by omega)]
    rfl
  · rfl

/-- C9 witness: a 1000-byte upload, target 500, resave of 900 bytes — the
resave exceeds the target yet is returned as a success with the warning. -/
theorem compress_fallback_ignores_target_witness :
    compress false (fun _ => none) (some 900) (some 500) 1000
        = (.ok ⟨900, 1000, some fallbackWarning, none⟩, emptySearch) :=
  (compress_fallback_ignores_target (fun _ => none) 900 500 1000 (by decide)).1

/-- Helper: the embed loop leaves the page count unchanged across files whose
mime type is unsupported. -/
theorem imageToPdf_foldl_skips :
    ∀ (files : List UploadImage) (n : Nat),
      (∀ f ∈ files, supportedMime f.mimetype = false) →
      files.foldl imageStep (.ok n) = .ok n
  | [], _, _ => rfl
  | f :: rest, n, h => by
    have hf : supportedMime f.mimetype = false := h f (List.mem_cons_self _ _)
    have step : imageStep (.ok n) f = .ok n := by
      simp [imageStep, Except.bind, hf]
    rw [List.foldl_cons, step]
    exact imageToPdf_foldl_skips rest n
      (fun g hg => h g (List.mem_cons_of_mem _ hg))

/-- C10: an image-to-pdf request whose every file has an unsupported mime
type still succeeds, answering with a zero-page document. -/
theorem imageToPdf_all_unsupported_zero_pages
    (files : List UploadImage) (hne : files ≠ [])
    (hall : ∀ f ∈ files, supportedMime f.mimetype = false) :
    imageToPdf files = .ok 0 := by
  unfold imageToPdf
  rw [if_neg (by simpa using hne)]
  exact imageToPdf_foldl_skips files 0 hall

/-- C10 witness: a single GIF upload produces a zero-page success. -/
theorem imageToPdf_all_unsupported_zero_pages_witness :
    imageToPdf [⟨"image/gif", true⟩] = .ok 0 :=
  imageToPdf_all_unsupported_zero_pages [⟨"image/gif", true⟩]
    (by decide) (by decide)

/-- Helper: as long as the incumbent best candidate is above the target, the
loop promotes the first candidate meeting the target and breaks there,
invoking exactly the presets up to and including it. -/
theorem presetSearchAux_first_hit (run : Nat → Option Nat) (target : Int) :
    ∀ (l : List Nat) (b : Option (Nat × Nat)) (r v : List Nat),
      (∀ bi bs, b = some (bi, bs) → target < (bs : Int)) →
      ∀ i s, l.find? (hitTarget run target) = some i → run i = some s →
        (presetSearchAux run target l ⟨b, r, v⟩).best = some (i, s) ∧
        (presetSearchAux run target l ⟨b, r, v⟩).invoked
          = v ++ (l.takeWhile (fun j => !hitTarget run target j) ++ [i])
  | [], b, r, v, hinv, i, s, hfind, hrun => by simp at hfind
  | j :: rest, b, r, v, hinv, i, s, hfind, hrun => by
    rcases hrj : run j with _ | sj
    · have hjf : hitTarget run target j = false := by simp [hitTarget, hrj]
      have hfind' : rest.find? (hitTarget run target) = some i := by
        rwa [List.find?_cons_of_neg _ (by simp [hjf])] at hfind
      have ih := presetSearchAux_first_hit run target rest b r (v ++ [j])
        hinv i s hfind' hrun
      simp only [presetSearchAux, hrj]
      refine ⟨ih.1, ?_⟩
      rw [ih.2, List.takeWhile_cons_of_pos (by simp [hjf])]
      simp
    · by_cases hle : (sj : Int) ≤ target
      · have hjt : hitTarget run target j = true := by simp [hitTarget, hrj, hle]
        have hij : j = i := by
          rw [List.find?_cons_of_pos _ hjt] at hfind
          exact Option.some.inj hfind
        subst hij
        have hs : s = sj := by
          rw [hrun] at hrj
          exact Option.some.inj hrj
        subst hs
        simp only [presetSearchAux, hrj, if_pos hle]
        refine ⟨by simp, ?_⟩
        rw [List.takeWhile_cons_of_neg (by simp [hjt])]
        simp
      · have hjf : hitTarget run target j = false := by
          simp [hitTarget, hrj, hle]
        have hfind' : rest.find? (hitTarget run target) = some i := by
          rwa [List.find?_cons_of_neg _ (by simp [hjf])] at hfind
        have htw : (j :: rest).takeWhile (fun k => !hitTarget run target k)
            = j :: rest.takeWhile (fun k => !hitTarget run target k) :=
          List.takeWhile_cons_of_pos (by simp [hjf])
        rcases hb : b with _ | ⟨bi, bs⟩
        · have ih := presetSearchAux_first_hit run target rest (some (j, sj)) r (v ++ [j])
            (by
              intro bi bs hbs
              rw [Option.some.injEq, Prod.mk.injEq] at hbs
              omega)
            i s hfind' hrun
          simp only [presetSearchAux, hrj, if_neg hle]
          refine ⟨ih.1, ?_⟩
          rw [ih.2, htw]
          simp
        · by_cases hlt : sj < bs
          · have ih := presetSearchAux_first_hit run target rest (some (j, sj))
              (r ++ [bi]) (v ++ [j])
              (by
                intro bi bs hbs
                rw [Option.some.injEq, Prod.mk.injEq] at hbs
                omega)
              i s hfind' hrun
            simp only [presetSearchAux, hrj, if_neg hle, if_pos hlt]
            refine ⟨ih.1, ?_⟩
            rw [ih.2, htw]
            simp
          · have ih := presetSearchAux_first_hit run target rest (some (bi, bs))
              (r ++ [j]) (v ++ [j])
              (by
                intro bi' bs' hbs
                rw [Option.some.injEq, Prod.mk.injEq] at hbs
                have := hinv bi bs hb
                omega)
              i s hfind' hrun
            simp only [presetSearchAux, hrj, if_neg hle, if_neg hlt]
            refine ⟨ih.1, ?_⟩
            rw [ih.2, htw]
            simp

/-- Helper: when no candidate meets the target, the loop runs to exhaustion:
the final best is the `minAcc` fold, every preset is invoked, and the removed
files together with the final best account (up to permutation) for the
initial bookkeeping plus every successfully produced candidate. -/
theorem presetSearchAux_no_hit (run : Nat → Option Nat) (target : Int) :
    ∀ (l : List Nat) (b : Option (Nat × Nat)) (r v : List Nat),
      (∀ j ∈ l, hitTarget run target j = false) →
      (presetSearchAux run target l ⟨b, r, v⟩).best = minAcc run l b ∧
      (presetSearchAux run target l ⟨b, r, v⟩).invoked = v ++ l ∧
      ((presetSearchAux run target l ⟨b, r, v⟩).removed
          ++ optIdx (presetSearchAux run target l ⟨b, r, v⟩).best).Perm
        ((r ++ optIdx b) ++ l.filter (fun j => (run j).isSome))
  | [], b, r, v, _ => by simp [presetSearchAux, minAcc]
  | j :: rest, b, r, v, h => by
    have hrest : ∀ k ∈ rest, hitTarget run target k = false :=
      fun k hk => h k (List.mem_cons_of_mem _ hk)
    rcases hrj : run j with _ | sj
    · have ih := presetSearchAux_no_hit run target rest b r (v ++ [j]) hrest
      simp only [presetSearchAux, hrj, minAcc]
      refine ⟨ih.1, by rw [ih.2.1]; simp, ?_⟩
      refine ih.2.2.trans (List.Perm.of_eq ?_)
      rw [List.filter_cons_of_neg (by simp [hrj])]
    · have hle : ¬ (sj : Int) ≤ target := by
        have := h j (List.mem_cons_self _ _)
        simp [hitTarget, hrj] at this
        omega
      have hfc : (j :: rest).filter (fun k => (run k).isSome)
          = j :: rest.filter (fun k => (run k).isSome) :=
        List.filter_cons_of_pos (by simp [hrj])
      rcases hb : b with _ | ⟨bi, bs⟩
      · have ih := presetSearchAux_no_hit run target rest (some (j, sj)) r (v ++ [j]) hrest
        simp only [presetSearchAux, hrj, if_neg hle, minAcc]
        refine ⟨ih.1, by rw [ih.2.1]; simp, ?_⟩
        refine ih.2.2.trans (List.Perm.of_eq ?_)
        rw [hfc]
        simp [optIdx]
      · by_cases hlt : sj < bs
        · have ih := presetSearchAux_no_hit run target rest (some (j, sj))
            (r ++ [bi]) (v ++ [j]) hrest
          simp only [presetSearchAux, hrj, if_neg hle, if_pos hlt, minAcc]
          refine ⟨ih.1, by rw [ih.2.1]; simp, ?_⟩
          refine ih.2.2.trans (List.Perm.of_eq ?_)
          rw [hfc]
          simp [optIdx]
        · have ih := presetSearchAux_no_hit run target rest (some (bi, bs))
            (r ++ [j]) (v ++ [j]) hrest
          simp only [presetSearchAux, hrj, if_neg hle, if_neg hlt, minAcc]
          refine ⟨ih.1, by rw [ih.2.1]; simp, ?_⟩
          refine ih.2.2.trans ?_
          rw [hfc]
          have hcore : List.Perm
              (j :: bi :: rest.filter (fun k => (run k).isSome))
              (bi :: j :: rest.filter (fun k => (run k).isSome)) :=
            List.Perm.swap bi j _
          have hswap : List.Perm
              ((r ++ [j]) ++ ([bi] ++ rest.filter (fun k => (run k).isSome)))
              ((r ++ [bi]) ++ (j :: rest.filter (fun k => (run k).isSome))) := by
            refine (List.Perm.of_eq (by simp)).trans
              ((hcore.append_left r).trans (List.Perm.of_eq (by simp)))
          exact (List.Perm.of_eq (by simp [optIdx])).trans hswap

/-- Helper: the `minAcc` fold returns a genuinely produced candidate whose
size is minimal among every candidate seen and the initial best. -/
theorem minAcc_spec (run : Nat → Option Nat) :
    ∀ (l : List Nat) (b : Option (Nat × Nat)) (j s : Nat),
      minAcc run l b = some (j, s) →
      ((j ∈ l ∧ run j = some s) ∨ b = some (j, s)) ∧
      (∀ k ∈ l, ∀ sk, run k = some sk → s ≤ sk) ∧
      (∀ bi bs, b = some (bi, bs) → s ≤ bs)
  | [], b, j, s, hm => by
    rw [minAcc] at hm
    refine ⟨Or.inr hm, by simp, ?_⟩
    intro bi bs hbs
    rw [hm, Option.some.injEq, Prod.mk.injEq] at hbs
    omega
  | i :: rest, b, j, s, hm => by
    rw [minAcc] at hm
    rcases hri : run i with _ | si <;> simp only [hri] at hm
    · have ih := minAcc_spec run rest b j s hm
      refine ⟨?_, ?_, ih.2.2⟩
      · rcases ih.1 with ⟨hj, hrun⟩ | hb
        · exact Or.inl ⟨List.mem_cons_of_mem _ hj, hrun⟩
        · exact Or.inr hb
      · intro k hk sk hrk
        rcases List.mem_cons.mp hk with rfl | hk
        · rw [hri] at hrk
          exact absurd hrk (by simp)
        · exact ih.2.1 k hk sk hrk
    · rcases hb : b with _ | ⟨bi, bs⟩ <;> simp only [hb] at hm
      · have ih := minAcc_spec run rest (some (i, si)) j s hm
        have hsi : s ≤ si := ih.2.2 i si rfl
        refine ⟨?_, ?_, by simp⟩
        · rcases ih.1 with ⟨hj, hrun⟩ | hself
          · exact Or.inl ⟨List.mem_cons_of_mem _ hj, hrun⟩
          · rw [Option.some.injEq, Prod.mk.injEq] at hself
            exact Or.inl ⟨by simp [hself.1], by rw [← hself.1, hri, hself.2]⟩
        · intro k hk sk hrk
          rcases List.mem_cons.mp hk with rfl | hk
          · rw [hri, Option.some.injEq] at hrk
            omega
          · exact ih.2.1 k hk sk hrk
      · by_cases hlt : si < bs
        · rw [if_pos hlt] at hm
          have ih := minAcc_spec run rest (some (i, si)) j s hm
          have hsi : s ≤ si := ih.2.2 i si rfl
          refine ⟨?_, ?_, ?_⟩
          · rcases ih.1 with ⟨hj, hrun⟩ | hself
            · exact Or.inl ⟨List.mem_cons_of_mem _ hj, hrun⟩
            · rw [Option.some.injEq, Prod.mk.injEq] at hself
              exact Or.inl ⟨by simp [hself.1], by rw [← hself.1, hri, hself.2]⟩
          · intro k hk sk hrk
            rcases List.mem_cons.mp hk with rfl | hk
            · rw [hri, Option.some.injEq] at hrk
              omega
            · exact ih.2.1 k hk sk hrk
          · intro bi' bs' hbs
            rw [Option.some.injEq, Prod.mk.injEq] at hbs
            omega
        · rw [if_neg hlt] at hm
          have ih := minAcc_spec run rest (some (bi, bs)) j s hm
          have hsb : s ≤ bs := ih.2.2 bi bs rfl
          refine ⟨?_, ?_, ?_⟩
          · rcases ih.1 with ⟨hj, hrun⟩ | hself
            · exact Or.inl ⟨List.mem_cons_of_mem _ hj, hrun⟩
            · exact Or.inr hself
          · intro k hk sk hrk
            rcases List.mem_cons.mp hk with rfl | hk
            · rw [hri, Option.some.injEq] at hrk
              omega
            · exact ih.2.1 k hk sk hrk
          · intro bi' bs' hbs
            rw [Option.some.injEq, Prod.mk.injEq] at hbs
            omega

/-- Helper: the `minAcc` fold yields nothing only when it started with
nothing and no invocation succeeded. -/
theorem minAcc_eq_none (run : Nat → Option Nat) :
    ∀ (l : List Nat) (b : Option (Nat × Nat)),
      minAcc run l b = none → b = none ∧ ∀ k ∈ l, run k = none
  | [], b, hm => by
    rw [minAcc] at hm
    exact ⟨hm, by simp⟩
  | i :: rest, b, hm => by
    rw [minAcc] at hm
    rcases hri : run i with _ | si <;> simp only [hri] at hm
    · have ih := minAcc_eq_none run rest b hm
      refine ⟨ih.1, ?_⟩
      intro k hk
      rcases List.mem_cons.mp hk with rfl | hk
      · exact hri
      · exact ih.2 k hk
    · rcases hb : b with _ | ⟨bi, bs⟩ <;> simp only [hb] at hm
      · exact absurd (minAcc_eq_none run rest (some (i, si)) hm).1 (by simp)
      · by_cases hlt : si < bs
        · rw [if_pos hlt] at hm
          exact absurd (minAcc_eq_none run rest (some (i, si)) hm).1 (by simp)
        · rw [if_neg hlt] at hm
          exact absurd (minAcc_eq_none run rest (some (bi, bs)) hm).1 (by simp)

/-- Helper: with no successful invocation and no incumbent, the fold stays
empty. -/
theorem minAcc_none_of_all_none (run : Nat → Option Nat) :
    ∀ (l : List Nat), (∀ k ∈ l, run k = none) → minAcc run l none = none
  | [], _ => by rw [minAcc]
  | i :: rest, h => by
    rw [minAcc]
    simp only [h i (List.mem_cons_self _ _)]
    exact minAcc_none_of_all_none run rest
      (fun k hk => h k (List.mem_cons_of_mem _ hk))

/-- C4 counterexample: with target 300, `/prepress` yields a 500-byte
candidate (kept as incumbent best) and `/printer` a 250-byte candidate that
meets the target; the loop promotes the 250-byte candidate and breaks, and
the 500-byte candidate file is never deleted — `removed` stays empty even
though preset 0 produced a non-promoted candidate. -/
theorem presetSearch_cleanup_leak_counterexample :
    runLeak 0 = some 500 ∧
    (presetSearch runLeak 300).best = some (1, 250) ∧
    0 ∈ (presetSearch runLeak 300).invoked ∧
    (presetSearch runLeak 300).removed = [] := by decide

/-- C4 amended: with a targetSize, the search promotes the first candidate
meeting the target and stops there; if no candidate meets the target, the
search runs to exhaustion and promotes a candidate of minimal size, deleting
every non-promoted successful candidate and never the promoted one — but on
the early-stop path the incumbent best candidate is left undeleted (see the
counterexample). -/
theorem presetSearch_greedy_min_cleanup (run : Nat → Option Nat) (target : Int) :
    (∀ i s, (List.range gsPresets.length).find? (hitTarget run target) = some i →
        run i = some s →
        (presetSearch run target).best = some (i, s) ∧
        (presetSearch run target).invoked
          = (List.range gsPresets.length).takeWhile
              (fun j => !hitTarget run target j) ++ [i]) ∧
    ((∀ j ∈ List.range gsPresets.length, hitTarget run target j = false) →
      ((presetSearch run target).best = none ↔
          ∀ k ∈ List.range gsPresets.length, run k = none) ∧
      (∀ j s, (presetSearch run target).best = some (j, s) →
          run j = some s ∧
          ∀ k ∈ List.range gsPresets.length, ∀ sk, run k = some sk → s ≤ sk) ∧
      (∀ k ∈ List.range gsPresets.length, (run k).isSome = true →
          (presetSearch run target).best.map Prod.fst = some k ∨
            k ∈ (presetSearch run target).removed) ∧
      (∀ j s, (presetSearch run target).best = some (j, s) →
          j ∉ (presetSearch run target).removed)) := by
  constructor
  · intro i s hfind hrun
    have h := presetSearchAux_first_hit run target (List.range gsPresets.length)
      none [] [] (by simp) i s hfind hrun
    exact ⟨h.1, by simpa using h.2⟩
  · intro hnh
    have h := presetSearchAux_no_hit run target (List.range gsPresets.length)
      none [] [] hnh
    have hbest : (presetSearch run target).best
        = minAcc run (List.range gsPresets.length) none := h.1
    have hperm : ((presetSearch run target).removed
          ++ optIdx (presetSearch run target).best).Perm
        ((List.range gsPresets.length).filter (fun j => (run j).isSome)) := by
      refine h.2.2.trans (List.Perm.of_eq ?_)
      simp [optIdx]
    refine ⟨⟨?_, ?_⟩, ?_, ?_, ?_⟩
    · intro hnone
      rw [hbest] at hnone
      exact (minAcc_eq_none run _ none hnone).2
    · intro hall
      rw [hbest]
      exact minAcc_none_of_all_none run _ hall
    · intro j s hj
      have hm := hbest.symm.trans hj
      have spec := minAcc_spec run _ none j s hm
      exact ⟨(spec.1.resolve_right (by simp)).2, spec.2.1⟩
    · intro k hk hks
      have hkf : k ∈ (List.range gsPresets.length).filter (fun j => (run j).isSome) :=
        List.mem_filter.mpr ⟨hk, hks⟩
      rcases List.mem_append.mp (hperm.mem_iff.mpr hkf) with hkr | hkb
      · exact Or.inr hkr
      · rcases hbv : (presetSearch run target).best with _ | ⟨j, s⟩
        · rw [hbv] at hkb
          simp [optIdx] at hkb
        · rw [hbv] at hkb
          simp only [optIdx, List.mem_singleton] at hkb
          subst hkb
          exact Or.inl rfl
    · intro j s hj hmem
      have hnd : ((presetSearch run target).removed
          ++ optIdx (presetSearch run target).best).Nodup :=
        hperm.nodup_iff.mpr (List.Nodup.filter _ (List.nodup_range _))
      rw [hj] at hnd
      simp only [optIdx] at hnd
      exact (List.nodup_append.mp hnd).2.2 hmem (List.mem_singleton_self j)

/-- C4 amended witness: on `runLeak` with target 300 the first hit (preset 1,
250 bytes) is promoted; on `runExhaust` with target 100 the minimal 250-byte
candidate is promoted, it is not removed, and the non-promoted successful
candidate of preset 0 was removed. -/
theorem presetSearch_greedy_min_cleanup_witness :
    (presetSearch runLeak 300).best = some (1, 250) ∧
    (250 : Nat) ≤ 500 ∧
    1 ∉ (presetSearch runExhaust 100).removed ∧
    0 ∈ (presetSearch runExhaust 100).removed := by
  have hg := (presetSearch_greedy_min_cleanup runLeak 300).1 1 250 (by decide) (by decide)
  have he := (presetSearch_greedy_min_cleanup runExhaust 100).2 (by decide)
  refine ⟨hg.1, ?_, ?_, ?_⟩
  · exact (he.2.1 1 250 (by decide)).2 0 (by decide) 500 (by decide)
  · exact he.2.2.2 1 250 (by decide)
  · exact (he.2.2.1 0 (by decide) (by decide)).resolve_left (by decide)

end ClgToolkit
